import Mathlib

/-
Verification of the stream-selection and download logic of the SoundCloud
provider module (src/interface.py, src/soundcloud_api.py), as a shallow
embedding: preset-string parsing, transcoding scoring and ranking, the
direct-download path, and the download error paths.
-/

set_option maxHeartbeats 1000000

namespace SC

/-- ASCII decimal digit test, modelling the digit class used by the
preset-string parsing in src/interface.py. -/
def isDigitChar (c : Char) : Bool := decide ('0' ≤ c) && decide (c ≤ '9')

/-- Numeric value of a list of decimal digit characters (Python int on a
digit string). -/
def digitsToNat (l : List Char) : Nat :=
  l.foldl (fun n c => 10 * n + (c.toNat - '0'.toNat)) 0

/-- Python str.isdigit restricted to ASCII digits: nonempty and all digits. -/
def isDigitSeg (l : List Char) : Bool := !l.isEmpty && l.all isDigitChar

/-- Substring containment, modelling Python's `in` operator on strings. -/
def containsSub (pat : List Char) : List Char → Bool
  | [] => pat.isEmpty
  | c :: rest => pat.isPrefixOf (c :: rest) || containsSub pat rest

/-- Split on a separator character, modelling Python str.split(sep) for a
one-character separator: always returns at least one (possibly empty) segment. -/
def splitCh (sep : Char) : List Char → List (List Char)
  | [] => [[]]
  | c :: rest =>
    if c = sep then [] :: splitCh sep rest
    else
      match splitCh sep rest with
      | [] => [[c]]
      | s :: ss => (c :: s) :: ss

/-- Engine for re.search applied with pattern (\d+)k: scans left to right,
`run` holds the current digit run reversed; the match is the first maximal
digit run immediately followed by the letter k, and the captured group is
that run. -/
def findDigitsKAux (run : List Char) : List Char → Option Nat
  | [] => none
  | c :: rest =>
    if isDigitChar c then findDigitsKAux (c :: run) rest
    else if c == 'k' && !run.isEmpty then some (digitsToNat run.reverse)
    else findDigitsKAux [] rest

/-- re.search with pattern (\d+)k over a preset string
(src/interface.py line 275). -/
def findDigitsK (l : List Char) : Option Nat := findDigitsKAux [] l

/-- re.search with pattern aac_(\d+)k over a preset string
(src/interface.py line 252): the leftmost literal aac_ followed by a
nonempty digit run followed by k; the group is the digit run. -/
def findAacK : List Char → Option Nat
  | 'a' :: 'a' :: 'c' :: '_' :: rest =>
    (match rest.dropWhile isDigitChar with
     | 'k' :: _ =>
       if (rest.takeWhile isDigitChar).isEmpty then findAacK rest
       else some (digitsToNat (rest.takeWhile isDigitChar))
     | _ => findAacK rest)
  | _ :: rest => findAacK rest
  | [] => none

/-- _parse_aac_bitrate_from_preset (src/interface.py lines 246-263):
aac_XXXk yields XXX, any other aac_ preset yields the fixed fallback 64,
everything else yields 0. -/
def aacBitrate (preset : List Char) : Nat :=
  match findAacK preset with
  | some n => n
  | none => if "aac_".data.isPrefixOf preset then 64 else 0

/-- _parse_progressive_bitrate_from_preset (src/interface.py lines 265-295):
Opus abr presets get fixed values, then the generic (\d+)k pattern, then the
numeric second underscore segment, then the (unreachable) Opus quality-level
scaling, else 0. -/
def progressiveBitrate (preset : List Char) (codecName : List Char) : Nat :=
  if codecName = "OPUS".data ∧ containsSub "abr_hq".data preset = true then 128
  else if codecName = "OPUS".data ∧ containsSub "abr_sq".data preset = true then 96
  else
    match findDigitsK preset with
    | some n => n
    | none =>
      let parts := splitCh '_' preset
      if 1 < parts.length ∧ isDigitSeg (parts.getD 1 []) = true then
        digitsToNat (parts.getD 1 [])
      else if codecName = "OPUS".data ∧ 1 < parts.length ∧
              parts.getD 0 [] = "opus".data ∧ isDigitSeg (parts.getD 1 []) = true then
        digitsToNat (parts.getD 1 []) * 12 + 32
      else 0

/-- Modelled from the spec: the host framework's codec enumeration
(CodecEnum from utils.models, which is not part of this repository); the
spec names AAC, OPUS, MP3 and the vorbis family as its members relevant
here. -/
inductive Codec
  | aac
  | opus
  | mp3
  | vorbis
  deriving DecidableEq, Repr

/-- Modelled from the spec: the membership test name in CodecEnum.__members__
against the host framework's codec enumeration. -/
def codecOfName (s : String) : Option Codec :=
  if s = "AAC" then some Codec.aac
  else if s = "OPUS" then some Codec.opus
  else if s = "MP3" then some Codec.mp3
  else if s = "VORBIS" then some Codec.vorbis
  else none

/-- One entry of track_data media transcodings as read by get_track_info:
url (may be null), format protocol, and the preset string. -/
structure Transcoding where
  url : Option String
  protocol : String
  preset : String
  deriving DecidableEq, Repr

/-- Python truthiness of the url field: null and the empty string are falsy. -/
def urlPresent : Option String → Bool
  | none => false
  | some s => !(s == "")

/-- Python str.lower over the characters of a string (ASCII). -/
def lowerChars (l : List Char) : List Char := l.map Char.toLower

/-- HLS marker check over the lowercased url
(src/interface.py lines 344-348). -/
def urlHlsMarkers (u : String) : Bool :=
  containsSub "/hls".data (lowerChars u.data) ||
  containsSub ".m3u8".data (lowerChars u.data) ||
  containsSub "ctr-encrypted-hls".data (lowerChars u.data) ||
  containsSub "cbc-encrypted-hls".data (lowerChars u.data)

/-- is_hls determination (src/interface.py lines 342-349): declared protocol
is hls, or the url carries an HLS marker. -/
def isHlsOf (t : Transcoding) : Bool :=
  t.protocol == "hls" ||
  (match t.url with
   | none => false
   | some u => urlHlsMarkers u)

/-- is_encrypted_hls determination (src/interface.py lines 352-356). -/
def isEncryptedOf (t : Transcoding) : Bool :=
  isHlsOf t &&
  (match t.url with
   | none => false
   | some u =>
     containsSub "ctr-encrypted-hls".data (lowerChars u.data) ||
     containsSub "cbc-encrypted-hls".data (lowerChars u.data))

/-- stream_codec_name: first underscore-delimited segment of the preset,
uppercased (src/interface.py lines 335-336). -/
def streamCodecName (preset : String) : String :=
  String.mk (((splitCh '_' preset.data).getD 0 []).map Char.toUpper)

/-- quality_score computation for a transcoding with recognized codec c
(src/interface.py lines 359-371): encrypted streams are forced to -100,
HLS AAC uses the AAC parser, everything else the generic parser. -/
def scoreOf (t : Transcoding) (c : Codec) : Int :=
  if isEncryptedOf t then -100
  else if isHlsOf t then
    if c = Codec.aac then (aacBitrate t.preset.data : Int)
    else (progressiveBitrate t.preset.data (streamCodecName t.preset).data : Int)
  else (progressiveBitrate t.preset.data (streamCodecName t.preset).data : Int)

/-- The fixed codec-and-protocol preference table with default 0
(src/interface.py lines 323-330): second argument is is_hls. -/
def codecPreference (c : Codec) (hls : Bool) : Nat :=
  match c, hls with
  | Codec.aac, true => 5
  | Codec.opus, true => 4
  | Codec.opus, false => 3
  | Codec.aac, false => 2
  | Codec.mp3, false => 1
  | Codec.mp3, true => 0
  | _, _ => 0

/-- One element of available_streams (src/interface.py lines 375-383). -/
structure ScoredStream where
  url : String
  codec : Codec
  is_hls : Bool
  is_encrypted : Bool
  quality : Int
  pref : Nat
  preset : String
  deriving DecidableEq, Repr

/-- The body of the transcoding loop (src/interface.py lines 332-383):
none when the codec name is unrecognized or the retention filter
(url truthy and quality_score >= 0) rejects the candidate. -/
def scoreStream (t : Transcoding) : Option ScoredStream :=
  match codecOfName (streamCodecName t.preset) with
  | none => none
  | some c =>
    if urlPresent t.url = true ∧ 0 ≤ scoreOf t c then
      some { url := t.url.getD ""
             codec := c
             is_hls := isHlsOf t
             is_encrypted := isEncryptedOf t
             quality := scoreOf t c
             pref := codecPreference c (isHlsOf t)
             preset := t.preset }
    else none

/-- available_streams built in input order from the transcoding list. -/
def availableStreams (ts : List Transcoding) : List ScoredStream :=
  ts.filterMap scoreStream

/-- The sort order of available_streams.sort(key quality and preference,
reverse true): a may precede b when its (quality, preference) pair is
lexicographically greater or equal; a stable sort under this relation is
exactly Python's stable descending sort. -/
def streamGe (a b : ScoredStream) : Prop :=
  b.quality < a.quality ∨ (a.quality = b.quality ∧ b.pref ≤ a.pref)

instance streamGeDecRel : DecidableRel streamGe := fun a b => by
  unfold streamGe; infer_instance

instance streamGeTotal : IsTotal ScoredStream streamGe :=
  ⟨fun a b => by unfold streamGe; omega⟩

instance streamGeTrans : IsTrans ScoredStream streamGe :=
  ⟨fun a b c hab hbc => by unfold streamGe at hab hbc ⊢; omega⟩

/-- The stable descending sort of available_streams
(src/interface.py line 387). -/
def sortStreams (l : List ScoredStream) : List ScoredStream :=
  List.insertionSort streamGe l

/-- best_stream: head of the sorted candidate list when nonempty
(src/interface.py line 389). -/
def selectBest (l : List ScoredStream) : Option ScoredStream :=
  (sortStreams l).head?

/-- The DRM diagnostic string (src/interface.py line 398). -/
def drmMsg : String :=
  "Track is available as a DRM-protected HLS stream, which can be downloaded, but aren't playable without decryption key. Skipping."

/-- The zero-or-negative-quality diagnostic (src/interface.py line 404). -/
def zeroQualityMsg (preset : String) : String :=
  "Best stream found (preset: " ++ preset ++ ") has zero or negative quality, or codec could not be parsed."

/-- Diagnostic when the transcoding list was nonempty but nothing was
retained (src/interface.py line 406). -/
def noUsableMsg : String := "No stream transcodings found or none were usable."

/-- Diagnostic when the transcoding list is empty (src/interface.py line 408). -/
def noTranscodingsMsg : String := "No stream transcodings available for this track."

/-- Diagnostic when the track is neither downloadable nor streamable
(src/interface.py line 410). -/
def notAvailableMsg : String := "Track is not available for download or streaming."

/-- Outcome of selection over a nonempty transcoding list
(src/interface.py lines 385-406). -/
structure SelOutcome where
  best : Option ScoredStream
  error : Option String
  deriving DecidableEq, Repr

/-- Lines 385-406 of src/interface.py: rank the retained candidates, take
the first, and classify the diagnostic; the inner not-encrypted re-check of
line 403 is kept as written. -/
def selectionOutcome (ts : List Transcoding) : SelOutcome :=
  match selectBest (availableStreams ts) with
  | some b =>
    { best := some b
      error :=
        if b.is_encrypted = true then some drmMsg
        else if 0 < b.quality then none
        else if b.is_encrypted = false then some (zeroQualityMsg b.preset)
        else none }
  | none => { best := none, error := some noUsableMsg }

/-- Python str.replace(old, new): replace all non-overlapping occurrences
left to right. Fuel-indexed to keep the recursion structural; fuel equal to
the input length suffices for the nonempty patterns used here. -/
def replaceSubFuel (pat rep : List Char) : Nat → List Char → List Char
  | 0, l => l
  | _ + 1, [] => []
  | fuel + 1, c :: rest =>
    if pat.isPrefixOf (c :: rest) then
      rep ++ replaceSubFuel pat rep fuel (List.drop pat.length (c :: rest))
    else c :: replaceSubFuel pat rep fuel rest

/-- Python str.replace(old, new) over character lists. -/
def replaceSub (pat rep l : List Char) : List Char :=
  replaceSubFuel pat rep l.length l

/-- Content-Type header to codec name (src/interface.py lines 307-308):
take the part after the last slash, replace mpeg by mp3 and ogg by vorbis,
then uppercase. -/
def ctCodecStr (ct : String) : String :=
  String.mk ((replaceSub "ogg".data "vorbis".data
    (replaceSub "mpeg".data "mp3".data
      ((splitCh '/' ct.data).getLastD []))).map Char.toUpper)

/-- Codec inference for the direct-download path
(src/interface.py lines 306-313): the inferred codec plus the optional
unknown-content-type diagnostic. -/
def directCodec (ct : String) : Codec × Option String :=
  match codecOfName (ctCodecStr ct) with
  | some c => (c, none)
  | none => (Codec.aac, some ("Unknown codec from direct download Content-Type: " ++ ct))

/-- The inputs of get_track_info that drive stream selection: the two
download flags, the streamable flag, the transcoding list, and (for the
direct path) the resolved download url and the observed Content-Type
header. -/
structure TrackInput where
  downloadable : Bool
  hasDownloadsLeft : Bool
  streamable : Bool
  transcodings : List Transcoding
  downloadUrl : String
  contentType : String
  deriving DecidableEq, Repr

/-- The stream-relevant outputs of get_track_info: file_url, download_url,
final_codec, final_is_hls_stream and the error diagnostic. -/
structure TrackStreamDecision where
  file_url : Option String
  download_url : Option String
  codec : Codec
  is_hls : Bool
  error : Option String
  deriving DecidableEq, Repr

/-- The branch structure of get_track_info (src/interface.py lines 301-410):
direct download path when downloadable and has_downloads_left, else
transcoding selection when streamable, else not available. -/
def trackStreamDecision (inp : TrackInput) : TrackStreamDecision :=
  if inp.downloadable = true ∧ inp.hasDownloadsLeft = true then
    { file_url := some inp.downloadUrl
      download_url := some inp.downloadUrl
      codec := (directCodec inp.contentType).1
      is_hls := false
      error := (directCodec inp.contentType).2 }
  else if inp.streamable = true then
    if inp.transcodings.isEmpty then
      { file_url := none, download_url := none, codec := Codec.aac
        is_hls := false, error := some noTranscodingsMsg }
    else
      match selectionOutcome inp.transcodings with
      | { best := some b, error := e } =>
        { file_url := some b.url, download_url := none, codec := b.codec
          is_hls := b.is_hls, error := e }
      | { best := none, error := e } =>
        { file_url := none, download_url := none, codec := Codec.aac
          is_hls := false, error := e }
  else
    { file_url := none, download_url := none, codec := Codec.aac
      is_hls := false, error := some notAvailableMsg }

/-- Observable side effects of get_track_download, in program order:
downloading the progressive container to a temporary file, attempting a
remux with the external tool, running the external tool on an HLS playlist,
removing a file, and printing the non-fatal remux warning. -/
inductive DlEvent
  | downloadToTemp (url dest : String)
  | remuxAttempt (src dst : String)
  | runHls (m3u8 dest : String)
  | removedFile (p : String)
  | printedWarning
  deriving DecidableEq, Repr

/-- Return value of get_track_download: a local temporary file path, or a
url plus Authorization header value for the caller to fetch directly. -/
inductive DlResult
  | tempFile (path : String)
  | urlResult (u : String) (authHeaderValue : String)
  deriving DecidableEq, Repr

/-- The non-HLS tail of get_track_download (src/interface.py lines 216-243)
given the resolved stream url: for AAC the container is downloaded to a
temporary file and remuxed; a remux failure is caught, the partial output is
removed, a warning is printed and the raw temporary file is returned; for
every other codec the resolved url with its Authorization header is
returned with no local download. The Except layer records that none of
these paths raises. -/
def nonHlsDownload (codec : Codec) (resolvedUrl accessToken tempLoc outputLoc : String)
    (remuxOk : Bool) : Except String DlResult × List DlEvent :=
  if codec = Codec.aac then
    if remuxOk then
      (Except.ok (DlResult.tempFile outputLoc),
       [DlEvent.downloadToTemp resolvedUrl tempLoc,
        DlEvent.remuxAttempt tempLoc outputLoc,
        DlEvent.removedFile tempLoc])
    else
      (Except.ok (DlResult.tempFile tempLoc),
       [DlEvent.downloadToTemp resolvedUrl tempLoc,
        DlEvent.remuxAttempt tempLoc outputLoc,
        DlEvent.removedFile outputLoc,
        DlEvent.printedWarning])
  else
    (Except.ok (DlResult.urlResult resolvedUrl ("OAuth " ++ accessToken)), [])

/-- Outcome of the external tool invocation in the HLS path: process exit
code, a raised ffmpeg.Error, or any other raised exception. -/
inductive FfmpegOutcome
  | exited (rc : Int)
  | libError (msg : String)
  | otherError (msg : String)
  deriving DecidableEq, Repr

/-- Whether the external tool invocation failed (non-zero exit code or a
raised exception). -/
def isFfmpegFailure : FfmpegOutcome → Bool
  | FfmpegOutcome.exited rc => !(rc == 0)
  | FfmpegOutcome.libError _ => true
  | FfmpegOutcome.otherError _ => true

/-- The HLS path of get_track_download (src/interface.py lines 166-214):
if the playlist url cannot be resolved the call raises before any file is
written; otherwise the external tool runs once, and on a non-zero exit code
or a raised exception the partial output file is removed and the
corresponding error is raised; on success the output file is returned. -/
def hlsDownload (resolvedM3u8 : Option String) (outputLoc : String)
    (outcome : FfmpegOutcome) : Except String DlResult × List DlEvent :=
  match resolvedM3u8 with
  | none => (Except.error "HLS_M3U8_RESOLUTION_ERROR", [])
  | some u =>
    match outcome with
    | FfmpegOutcome.exited rc =>
      if rc = 0 then
        (Except.ok (DlResult.tempFile outputLoc), [DlEvent.runHls u outputLoc])
      else
        (Except.error "HLS_DOWNLOAD_FFMPEG_ERROR",
         [DlEvent.runHls u outputLoc, DlEvent.removedFile outputLoc])
    | FfmpegOutcome.libError msg =>
      (Except.error ("HLS_FFMPEG_LIB_ERROR: " ++ msg),
       [DlEvent.runHls u outputLoc, DlEvent.removedFile outputLoc])
    | FfmpegOutcome.otherError msg =>
      (Except.error ("HLS_UNEXPECTED_ERROR_IN_TRY_BLOCK: " ++ msg),
       [DlEvent.runHls u outputLoc, DlEvent.removedFile outputLoc])

/-! ### Helper lemmas about scoring, retention and ranking -/

theorem scoreStream_eq_some {t : Transcoding} {s : ScoredStream}
    (h : scoreStream t = some s) :
    ∃ c, codecOfName (streamCodecName t.preset) = some c ∧
      urlPresent t.url = true ∧ 0 ≤ scoreOf t c ∧
      s = { url := t.url.getD ""
            codec := c
            is_hls := isHlsOf t
            is_encrypted := isEncryptedOf t
            quality := scoreOf t c
            pref := codecPreference c (isHlsOf t)
            preset := t.preset } := by
  unfold scoreStream at h
  split at h
  · exact absurd h (by simp)
  · rename_i c hc
    split at h
    · rename_i hcond
      exact ⟨c, hc, hcond.1, hcond.2, (Option.some.injEq _ _ ▸ h).symm⟩
    · exact absurd h (by simp)

theorem scoreStream_of_valid {t : Transcoding} {c : Codec}
    (hc : codecOfName (streamCodecName t.preset) = some c)
    (hu : urlPresent t.url = true) (hq : 0 ≤ scoreOf t c) :
    scoreStream t = some
      { url := t.url.getD ""
        codec := c
        is_hls := isHlsOf t
        is_encrypted := isEncryptedOf t
        quality := scoreOf t c
        pref := codecPreference c (isHlsOf t)
        preset := t.preset } := by
  unfold scoreStream
  rw [hc]
  exact if_pos ⟨hu, hq⟩

theorem scoreStream_none_of_unrecognized {t : Transcoding}
    (h : codecOfName (streamCodecName t.preset) = none) : scoreStream t = none := by
  unfold scoreStream
  rw [h]

theorem scoreOf_of_encrypted {t : Transcoding} (c : Codec)
    (h : isEncryptedOf t = true) : scoreOf t c = -100 := by
  unfold scoreOf
  rw [h]
  simp

theorem scoreStream_none_of_encrypted {t : Transcoding}
    (h : isEncryptedOf t = true) : scoreStream t = none := by
  unfold scoreStream
  split
  · rfl
  · rename_i c hc
    rw [if_neg]
    intro hcond
    have := hcond.2
    rw [scoreOf_of_encrypted c h] at this
    omega

theorem mem_avail_spec {ts : List Transcoding} {s : ScoredStream}
    (hs : s ∈ availableStreams ts) :
    s.is_encrypted = false ∧ 0 ≤ s.quality ∧
      s.pref = codecPreference s.codec s.is_hls := by
  obtain ⟨t, ht, hts⟩ := List.mem_filterMap.mp hs
  obtain ⟨c, hc, hu, hq0, hsEq⟩ := scoreStream_eq_some hts
  refine ⟨?_, by rw [hsEq]; exact hq0, by rw [hsEq]⟩
  rw [hsEq]
  show isEncryptedOf t = false
  cases henc : isEncryptedOf t with
  | false => rfl
  | true =>
    rw [scoreOf_of_encrypted c henc] at hq0
    omega

theorem streamGe_refl (a : ScoredStream) : streamGe a a := by
  unfold streamGe
  omega

theorem sortStreams_sorted (l : List ScoredStream) :
    List.Sorted streamGe (sortStreams l) :=
  List.sorted_insertionSort streamGe l

theorem mem_sortStreams {l : List ScoredStream} {s : ScoredStream} :
    s ∈ sortStreams l ↔ s ∈ l :=
  List.mem_insertionSort streamGe

theorem selectBest_eq_none {l : List ScoredStream} :
    selectBest l = none ↔ l = [] := by
  unfold selectBest
  rw [List.head?_eq_none_iff]
  constructor
  · intro h
    have hlen := (List.perm_insertionSort streamGe l).length_eq
    unfold sortStreams at h
    rw [h] at hlen
    exact List.length_eq_zero.mp hlen.symm
  · intro h
    rw [h]
    rfl

theorem selectBest_mem {l : List ScoredStream} {s : ScoredStream}
    (h : selectBest l = some s) : s ∈ l := by
  unfold selectBest at h
  have hm : s ∈ sortStreams l := by
    cases hs : sortStreams l with
    | nil => rw [hs] at h; exact absurd h (by simp)
    | cons a tl =>
      rw [hs] at h
      have ha : a = s := by simpa using h
      rw [← ha]
      exact List.mem_cons_self a tl
  exact mem_sortStreams.mp hm

theorem selectBest_ge {l : List ScoredStream} {s : ScoredStream}
    (h : selectBest l = some s) : ∀ u ∈ l, streamGe s u := by
  intro u hu
  have hus : u ∈ sortStreams l := mem_sortStreams.mpr hu
  unfold selectBest at h
  cases hs : sortStreams l with
  | nil => rw [hs] at h; exact absurd h (by simp)
  | cons a tl =>
    rw [hs] at h
    have ha : a = s := by simpa using h
    subst ha
    rw [hs] at hus
    rcases List.mem_cons.mp hus with h1 | h1
    · rw [h1]
      exact streamGe_refl a
    · have hsorted := sortStreams_sorted l
      rw [hs] at hsorted
      exact List.rel_of_sorted_cons hsorted u h1

/-! ### Claim theorems -/

/-- Claim C1, counterexample: a track whose only transcoding is an encrypted
HLS stream with a url present is NOT retained for ranking; available_streams
is empty and the generic no-usable-transcodings diagnostic is emitted instead
of the DRM-protected diagnostic. -/
theorem c1_counterexample :
    availableStreams
      [{ url := some "https://api.soundcloud.com/x/ctr-encrypted-hls/y"
         protocol := "hls", preset := "mp3_1_0" }] = [] ∧
    selectionOutcome
      [{ url := some "https://api.soundcloud.com/x/ctr-encrypted-hls/y"
         protocol := "hls", preset := "mp3_1_0" }] =
      { best := none, error := some noUsableMsg } ∧
    noUsableMsg ≠ drmMsg := by
  refine ⟨by decide, by decide, by decide⟩

/-- Claim C1 (amended): a transcoding candidate is retained for ranking if
and only if its url is truthy and its quality score is >= 0; since encrypted
candidates are forced to score -100, they are never retained. A track whose
only candidate is an encrypted HLS stream therefore yields no selection and
the generic no-usable-transcodings diagnostic; the DRM-protected diagnostic
branch is unreachable. -/
theorem c1_amended_retention :
    (∀ (ts : List Transcoding) (s : ScoredStream), s ∈ availableStreams ts →
       s.is_encrypted = false ∧ 0 ≤ s.quality) ∧
    (∀ (t : Transcoding) (c : Codec),
       codecOfName (streamCodecName t.preset) = some c →
       urlPresent t.url = true → 0 ≤ scoreOf t c →
       scoreStream t ≠ none) ∧
    (∀ t : Transcoding, isEncryptedOf t = true →
       availableStreams [t] = [] ∧
       selectionOutcome [t] = { best := none, error := some noUsableMsg }) := by
  refine ⟨?_, ?_, ?_⟩
  · intro ts s hs
    exact ⟨(mem_avail_spec hs).1, (mem_avail_spec hs).2.1⟩
  · intro t c hc hu hq
    rw [scoreStream_of_valid hc hu hq]
    simp
  · intro t henc
    have hnone : scoreStream t = none := scoreStream_none_of_encrypted henc
    have hav : availableStreams [t] = [] := by
      unfold availableStreams
      simp [List.filterMap_cons, hnone]
    refine ⟨hav, ?_⟩
    unfold selectionOutcome
    rw [hav]
    rfl

/-- Claim C1, witness for the amended theorem at a concrete encrypted HLS
candidate. -/
theorem c1_amended_witness :
    availableStreams
      [{ url := some "https://cf-hls-media.sndcdn.com/playlist/cbc-encrypted-hls.m3u8"
         protocol := "hls", preset := "aac_256k" }] = [] ∧
    selectionOutcome
      [{ url := some "https://cf-hls-media.sndcdn.com/playlist/cbc-encrypted-hls.m3u8"
         protocol := "hls", preset := "aac_256k" }] =
      { best := none, error := some noUsableMsg } :=
  c1_amended_retention.2.2
    { url := some "https://cf-hls-media.sndcdn.com/playlist/cbc-encrypted-hls.m3u8"
      protocol := "hls", preset := "aac_256k" }
    (by decide)

/-- Claim C6: whenever some transcoding has a recognized codec, a truthy url
and a non-negative quality score, selection succeeds and the selected
candidate is never an encrypted HLS candidate. -/
theorem c6_encrypted_never_selected (ts : List Transcoding)
    (h : ∃ t ∈ ts, ∃ c, codecOfName (streamCodecName t.preset) = some c ∧
          urlPresent t.url = true ∧ 0 ≤ scoreOf t c) :
    ∃ s, selectBest (availableStreams ts) = some s ∧ s.is_encrypted = false := by
  obtain ⟨t, ht, c, hc, hu, hq⟩ := h
  have hne : availableStreams ts ≠ [] := by
    intro h0
    have hall := List.filterMap_eq_nil_iff.mp h0 t ht
    rw [scoreStream_of_valid hc hu hq] at hall
    exact absurd hall (by simp)
  cases hsel : selectBest (availableStreams ts) with
  | none => exact absurd (selectBest_eq_none.mp hsel) hne
  | some s =>
    exact ⟨s, rfl, (mem_avail_spec (selectBest_mem hsel)).1⟩

/-- Claim C6, witness: one progressive MP3 candidate alongside an encrypted
candidate; selection succeeds and is not encrypted. -/
theorem c6_witness :
    ∃ s, selectBest (availableStreams
      [{ url := some "https://u/enc/ctr-encrypted-hls", protocol := "hls", preset := "mp3_1_0" },
       { url := some "https://u/p", protocol := "progressive", preset := "mp3_128k" }]) = some s ∧
      s.is_encrypted = false :=
  c6_encrypted_never_selected _
    ⟨{ url := some "https://u/p", protocol := "progressive", preset := "mp3_128k" },
     by decide, Codec.mp3, by decide, by decide, by decide⟩

/-- Claim C2, counterexample: two retained candidates with identical
(quality, preference) keys; the stable sort keeps input order, so permuting
the input changes the selected candidate's url. -/
theorem c2_counterexample :
    ([{ url := some "https://u/a", protocol := "progressive", preset := "mp3_128k" },
      { url := some "https://u/b", protocol := "progressive", preset := "mp3_128k" }] :
        List Transcoding).Perm
      [{ url := some "https://u/b", protocol := "progressive", preset := "mp3_128k" },
       { url := some "https://u/a", protocol := "progressive", preset := "mp3_128k" }] ∧
    selectBest (availableStreams
      [{ url := some "https://u/a", protocol := "progressive", preset := "mp3_128k" },
       { url := some "https://u/b", protocol := "progressive", preset := "mp3_128k" }]) ≠
    selectBest (availableStreams
      [{ url := some "https://u/b", protocol := "progressive", preset := "mp3_128k" },
       { url := some "https://u/a", protocol := "progressive", preset := "mp3_128k" }]) := by
  refine ⟨by decide, by decide⟩

/-- Claim C2 (amended): stream selection is order-independent provided no two
retained candidates share the same (quality score, preference score) pair;
ties on both keys are broken by input order by the stable sort. -/
theorem c2_amended_perm_invariant (ts1 ts2 : List Transcoding) (hp : ts1.Perm ts2)
    (hinj : (availableStreams ts1).Pairwise
      (fun a b => a.quality = b.quality → a.pref = b.pref → a = b)) :
    selectBest (availableStreams ts1) = selectBest (availableStreams ts2) := by
  have hap : (availableStreams ts1).Perm (availableStreams ts2) :=
    hp.filterMap scoreStream
  cases h1 : selectBest (availableStreams ts1) with
  | none =>
    have h0 : availableStreams ts1 = [] := selectBest_eq_none.mp h1
    have h0' : availableStreams ts2 = [] := by
      rw [h0] at hap
      exact hap.symm.eq_nil
    rw [selectBest_eq_none.mpr h0']
  | some s1 =>
    cases h2 : selectBest (availableStreams ts2) with
    | none =>
      have h0 : availableStreams ts2 = [] := selectBest_eq_none.mp h2
      rw [h0] at hap
      rw [selectBest_eq_none.mpr hap.eq_nil] at h1
      exact absurd h1 (by simp)
    | some s2 =>
      have hm1 : s1 ∈ availableStreams ts1 := selectBest_mem h1
      have hm2 : s2 ∈ availableStreams ts2 := selectBest_mem h2
      have hm2l : s2 ∈ availableStreams ts1 := hap.mem_iff.mpr hm2
      have hm1r : s1 ∈ availableStreams ts2 := hap.mem_iff.mp hm1
      have g12 : streamGe s1 s2 := selectBest_ge h1 s2 hm2l
      have g21 : streamGe s2 s1 := selectBest_ge h2 s1 hm1r
      have hq : s1.quality = s2.quality := by
        unfold streamGe at g12 g21; omega
      have hpref : s1.pref = s2.pref := by
        unfold streamGe at g12 g21; omega
      by_cases he : s1 = s2
      · rw [he]
      · have hsymm : Symmetric
            (fun a b : ScoredStream => a.quality = b.quality → a.pref = b.pref → a = b) :=
          fun a b hab e1 e2 => (hab e1.symm e2.symm).symm
        exact absurd (hinj.forall hsymm hm1 hm2l he hq hpref) he

/-- Claim C2, witness for the amended theorem: permuting two candidates with
distinct quality scores leaves the selection unchanged. -/
theorem c2_amended_witness :
    selectBest (availableStreams
      [{ url := some "https://u/a", protocol := "progressive", preset := "mp3_128k" },
       { url := some "https://u/b", protocol := "progressive", preset := "mp3_64k" }]) =
    selectBest (availableStreams
      [{ url := some "https://u/b", protocol := "progressive", preset := "mp3_64k" },
       { url := some "https://u/a", protocol := "progressive", preset := "mp3_128k" }]) :=
  c2_amended_perm_invariant _ _ (by decide) (by decide)

/-- Claim C5: among retained candidates with equal quality score, the one
with the higher preference score from the fixed codec-and-protocol table is
ranked strictly ahead of the other, and the lower-preference one is never
the selected candidate; every retained candidate carries exactly the table's
preference score. -/
theorem c5_preference_tiebreak (ts : List Transcoding) (s1 s2 : ScoredStream)
    (h1 : s1 ∈ availableStreams ts) (h2 : s2 ∈ availableStreams ts)
    (hq : s1.quality = s2.quality) (hp : s2.pref < s1.pref) :
    (∀ s ∈ availableStreams ts, s.pref = codecPreference s.codec s.is_hls) ∧
    (∀ j, ∀ hj : j < (sortStreams (availableStreams ts)).length,
       (sortStreams (availableStreams ts)).get ⟨j, hj⟩ = s2 →
       ∃ i, ∃ hi : i < (sortStreams (availableStreams ts)).length,
         i < j ∧ (sortStreams (availableStreams ts)).get ⟨i, hi⟩ = s1) ∧
    selectBest (availableStreams ts) ≠ some s2 := by
  have hsort : List.Sorted streamGe (sortStreams (availableStreams ts)) :=
    sortStreams_sorted (availableStreams ts)
  have hm1 : s1 ∈ sortStreams (availableStreams ts) := mem_sortStreams.mpr h1
  have hahead : ∀ j, ∀ hj : j < (sortStreams (availableStreams ts)).length,
      (sortStreams (availableStreams ts)).get ⟨j, hj⟩ = s2 →
      ∃ i, ∃ hi : i < (sortStreams (availableStreams ts)).length,
        i < j ∧ (sortStreams (availableStreams ts)).get ⟨i, hi⟩ = s1 := by
    intro j hj hget
    rw [List.mem_iff_getElem] at hm1
    obtain ⟨i, hi, hgi⟩ := hm1
    have hgi : (sortStreams (availableStreams ts)).get ⟨i, hi⟩ = s1 := by
      simpa using hgi
    rcases lt_trichotomy i j with hlt | heq | hgt
    · exact ⟨i, hi, hlt, hgi⟩
    · subst heq
      have hss : s1 = s2 := by rw [← hgi, ← hget]
      rw [hss] at hp
      exact absurd hp (lt_irrefl _)
    · have hrel : streamGe ((sortStreams (availableStreams ts)).get ⟨j, hj⟩)
          ((sortStreams (availableStreams ts)).get ⟨i, hi⟩) :=
        List.Sorted.rel_get_of_lt hsort (by exact hgt)
      rw [hget, hgi] at hrel
      unfold streamGe at hrel
      omega
  refine ⟨?_, hahead, ?_⟩
  · intro s hs
    exact (mem_avail_spec hs).2.2
  · intro hsel
    unfold selectBest at hsel
    cases hs : sortStreams (availableStreams ts) with
    | nil => rw [hs] at hsel; exact absurd hsel (by simp)
    | cons a tl =>
      rw [hs] at hsel
      have ha : a = s2 := by simpa using hsel
      have hm1s : s1 ∈ a :: tl := by rw [← hs]; exact hm1
      rcases List.mem_cons.mp hm1s with hh | hh
      · rw [ha] at hh
        rw [hh] at hp
        exact absurd hp (lt_irrefl _)
      · have hsorted2 := hsort
        rw [hs] at hsorted2
        have hrel := List.rel_of_sorted_cons hsorted2 s1 hh
        rw [ha] at hrel
        unfold streamGe at hrel
        omega

/-- Claim C5, witness: HLS AAC at 128 kbps is selected ahead of progressive
AAC at 128 kbps. -/
theorem c5_witness :
    selectBest (availableStreams
      [{ url := some "https://u/p2", protocol := "progressive", preset := "aac_128k" },
       { url := some "https://u/hls1", protocol := "hls", preset := "aac_128k" }]) ≠
    some { url := "https://u/p2", codec := Codec.aac, is_hls := false
           is_encrypted := false, quality := 128, pref := 2, preset := "aac_128k" } :=
  (c5_preference_tiebreak
    [{ url := some "https://u/p2", protocol := "progressive", preset := "aac_128k" },
     { url := some "https://u/hls1", protocol := "hls", preset := "aac_128k" }]
    { url := "https://u/hls1", codec := Codec.aac, is_hls := true
      is_encrypted := false, quality := 128, pref := 5, preset := "aac_128k" }
    { url := "https://u/p2", codec := Codec.aac, is_hls := false
      is_encrypted := false, quality := 128, pref := 2, preset := "aac_128k" }
    (by decide) (by decide) (by decide) (by decide)).2.2

/-! ### Lemmas about preset-string parsing -/

theorem digit_ne_underscore {c : Char} (h : isDigitChar c = true) : c ≠ '_' := by
  intro he
  subst he
  exact absurd h (by decide)

theorem splitCh_sep_cons (sep : Char) (rest : List Char) :
    splitCh sep (sep :: rest) = [] :: splitCh sep rest := by
  rw [splitCh]
  rw [if_pos rfl]

theorem splitCh_append (sep : Char) (a rest : List Char) (ha : ∀ c ∈ a, c ≠ sep) :
    splitCh sep (a ++ sep :: rest) = a :: splitCh sep rest := by
  induction a with
  | nil => simpa using splitCh_sep_cons sep rest
  | cons c a2 ih =>
    have hc : c ≠ sep := ha c (by simp)
    have ih2 := ih fun x hx => ha x (by simp [hx])
    show splitCh sep (c :: (a2 ++ sep :: rest)) = (c :: a2) :: splitCh sep rest
    rw [splitCh]
    rw [if_neg hc, ih2]

theorem takeWhile_digits_append (ds : List Char) (hd : ds.all isDigitChar = true)
    {c : Char} (hc : isDigitChar c = false) (suf : List Char) :
    (ds ++ c :: suf).takeWhile isDigitChar = ds := by
  induction ds with
  | nil => simp [List.takeWhile_cons, hc]
  | cons d ds2 ih =>
    simp only [List.all_cons, Bool.and_eq_true] at hd
    simp [List.takeWhile_cons, hd.1, ih hd.2]

theorem dropWhile_digits_append (ds : List Char) (hd : ds.all isDigitChar = true)
    {c : Char} (hc : isDigitChar c = false) (suf : List Char) :
    (ds ++ c :: suf).dropWhile isDigitChar = c :: suf := by
  induction ds with
  | nil => simp [List.dropWhile_cons, hc]
  | cons d ds2 ih =>
    simp only [List.all_cons, Bool.and_eq_true] at hd
    simp [List.dropWhile_cons, hd.1, ih hd.2]

theorem findDigitsKAux_digit {c : Char} (hc : isDigitChar c = true) (run l : List Char) :
    findDigitsKAux run (c :: l) = findDigitsKAux (c :: run) l := by
  rw [findDigitsKAux]
  rw [if_pos hc]

theorem findDigitsKAux_skip {c : Char} (hc : isDigitChar c = false)
    (hk : (c == 'k') = false) (run l : List Char) :
    findDigitsKAux run (c :: l) = findDigitsKAux [] l := by
  rw [findDigitsKAux]
  rw [if_neg (by simp [hc]), if_neg (by simp [hk])]

theorem findDigitsKAux_run (suf : List Char) :
    ∀ ds run : List Char, (run = [] → ds ≠ []) → ds.all isDigitChar = true →
      findDigitsKAux run (ds ++ 'k' :: suf) = some (digitsToNat (run.reverse ++ ds)) := by
  intro ds
  induction ds with
  | nil =>
    intro run hne _
    have hrun : run ≠ [] := fun h => (hne h) rfl
    show findDigitsKAux run ('k' :: suf) = some (digitsToNat (run.reverse ++ []))
    unfold findDigitsKAux
    rw [if_neg (by simp [show isDigitChar 'k' = false by decide])]
    rw [if_pos (by simp [List.isEmpty_eq_false.mpr hrun])]
    simp
  | cons d ds2 ih =>
    intro run _ hall
    simp only [List.all_cons, Bool.and_eq_true] at hall
    show findDigitsKAux run (d :: (ds2 ++ 'k' :: suf)) = _
    rw [findDigitsKAux_digit hall.1]
    rw [ih (d :: run) (by simp) hall.2]
    congr 1
    simp

theorem findDigitsK_mp3k (ds suf : List Char) (hne : ds ≠ [])
    (hall : ds.all isDigitChar = true) :
    findDigitsK ("mp3_".data ++ (ds ++ 'k' :: suf)) = some (digitsToNat ds) := by
  show findDigitsKAux [] ('m' :: 'p' :: '3' :: '_' :: (ds ++ 'k' :: suf)) = _
  rw [findDigitsKAux_skip (by decide) (by decide)]
  rw [findDigitsKAux_skip (by decide) (by decide)]
  rw [findDigitsKAux_digit (by decide)]
  rw [findDigitsKAux_skip (by decide) (by decide)]
  rw [findDigitsKAux_run suf ds [] (fun _ => hne) hall]
  simp

theorem findAacK_match (ds suf : List Char) (hne : ds ≠ [])
    (hall : ds.all isDigitChar = true) :
    findAacK ("aac_".data ++ (ds ++ 'k' :: suf)) = some (digitsToNat ds) := by
  show findAacK ('a' :: 'a' :: 'c' :: '_' :: (ds ++ 'k' :: suf)) = _
  rw [findAacK]
  rw [dropWhile_digits_append ds hall (by decide) suf]
  rw [takeWhile_digits_append ds hall (by decide) suf]
  simp [List.isEmpty_eq_false.mpr hne]

/-- Claim C3, counterexample: the generic extractor on the Opus quality-level
preset opus_5_0 returns 5 (the numeric second underscore segment), not
5 * 12 + 32 = 92. -/
theorem c3_counterexample :
    progressiveBitrate "opus_5_0".data "OPUS".data = 5 ∧
    progressiveBitrate "opus_5_0".data "OPUS".data ≠ 5 * 12 + 32 := by
  refine ⟨by decide, by decide⟩

/-- Claim C3 (amended): for an Opus quality-level preset opus_LEVEL_REST
(level at most 10, digits) containing no digits-k pattern and no Opus abr
marker, the generic extractor returns the level itself via the
numeric-second-segment rule; the level*12+32 scaling branch is unreachable
for such presets. -/
theorem c3_amended_opus_level (ds suf : List Char) (hne : ds ≠ [])
    (hall : ds.all isDigitChar = true) (hlev : digitsToNat ds ≤ 10)
    (hk : findDigitsK ("opus_".data ++ (ds ++ '_' :: suf)) = none)
    (h1 : containsSub "abr_hq".data ("opus_".data ++ (ds ++ '_' :: suf)) = false)
    (h2 : containsSub "abr_sq".data ("opus_".data ++ (ds ++ '_' :: suf)) = false) :
    progressiveBitrate ("opus_".data ++ (ds ++ '_' :: suf)) "OPUS".data =
      digitsToNat ds := by
  have hsplit : splitCh '_' ("opus_".data ++ (ds ++ '_' :: suf)) =
      "opus".data :: ds :: splitCh '_' suf := by
    show splitCh '_' ("opus".data ++ '_' :: (ds ++ '_' :: suf)) = _
    rw [splitCh_append '_' "opus".data (ds ++ '_' :: suf) (by decide)]
    rw [splitCh_append '_' ds suf (fun c hc => digit_ne_underscore (by
      rw [List.all_eq_true] at hall
      exact hall c hc))]
  unfold progressiveBitrate
  rw [if_neg fun hcond => absurd hcond.2 (by rw [h1]; simp)]
  rw [if_neg fun hcond => absurd hcond.2 (by rw [h2]; simp)]
  rw [hk]
  have hseg : isDigitSeg ((splitCh '_' ("opus_".data ++ (ds ++ '_' :: suf))).getD 1 []) =
      true := by
    rw [hsplit]
    show isDigitSeg ds = true
    unfold isDigitSeg
    rw [List.isEmpty_eq_false.mpr hne, hall]
    rfl
  rw [if_pos ⟨by rw [hsplit]; simp, hseg⟩]
  rw [hsplit]
  rfl

/-- Claim C3, witness for the amended theorem at opus_5_0. -/
theorem c3_amended_witness :
    progressiveBitrate ("opus_".data ++ (['5'] ++ '_' :: ['0'])) "OPUS".data =
      digitsToNat ['5'] :=
  c3_amended_opus_level ['5'] ['0'] (by decide) (by decide) (by decide)
    (by decide) (by decide) (by decide)

/-- Claim C4: the bitrate extractors are total functions with: (1) the AAC
extractor maps aac_DIGITSk to the digits' value; (2) the generic extractor
maps mp3_DIGITSk to the digits' value; (3) any other aac_ preset without an
aac-digits-k match maps to the fixed fallback 64; (4) a non-aac string with
no aac-digits-k match maps to 0 in the AAC extractor; (5) a string with no
abr marker, no digits-k pattern and no numeric second segment maps to 0 in
the generic extractor. -/
theorem c4_bitrate_extractors :
    (∀ ds suf : List Char, ds ≠ [] → ds.all isDigitChar = true →
       aacBitrate ("aac_".data ++ (ds ++ 'k' :: suf)) = digitsToNat ds) ∧
    (∀ ds suf : List Char, ds ≠ [] → ds.all isDigitChar = true →
       progressiveBitrate ("mp3_".data ++ (ds ++ 'k' :: suf)) "MP3".data =
         digitsToNat ds) ∧
    (∀ s : List Char, findAacK s = none → "aac_".data.isPrefixOf s = true →
       aacBitrate s = 64) ∧
    (∀ s : List Char, findAacK s = none → "aac_".data.isPrefixOf s = false →
       aacBitrate s = 0) ∧
    (∀ s name : List Char,
       containsSub "abr_hq".data s = false → containsSub "abr_sq".data s = false →
       findDigitsK s = none → isDigitSeg ((splitCh '_' s).getD 1 []) = false →
       progressiveBitrate s name = 0) := by
  refine ⟨?_, ?_, ?_, ?_, ?_⟩
  · intro ds suf hne hall
    unfold aacBitrate
    rw [findAacK_match ds suf hne hall]
  · intro ds suf hne hall
    unfold progressiveBitrate
    rw [if_neg (by simp), if_neg (by simp)]
    rw [findDigitsK_mp3k ds suf hne hall]
  · intro s hnone hpre
    unfold aacBitrate
    rw [hnone, if_pos hpre]
  · intro s hnone hpre
    unfold aacBitrate
    rw [hnone, if_neg (by simp [hpre])]
  · intro s name h1 h2 hk hseg
    unfold progressiveBitrate
    rw [if_neg fun hcond => absurd hcond.2 (by rw [h1]; simp)]
    rw [if_neg fun hcond => absurd hcond.2 (by rw [h2]; simp)]
    rw [hk]
    rw [if_neg fun hcond => absurd hcond.2 (by rw [hseg]; simp)]
    rw [if_neg fun hcond => absurd hcond.2.2.2 (by rw [hseg]; simp)]

/-- Claim C4, witness: concrete instances of all five extractor contracts. -/
theorem c4_witness :
    aacBitrate ("aac_".data ++ (['2', '5', '6'] ++ 'k' :: [])) =
      digitsToNat ['2', '5', '6'] ∧
    progressiveBitrate ("mp3_".data ++ (['1', '2', '8'] ++ 'k' :: [])) "MP3".data =
      digitsToNat ['1', '2', '8'] ∧
    aacBitrate "aac_1_0".data = 64 ∧
    aacBitrate "mp3_hq".data = 0 ∧
    progressiveBitrate "zzz_hq".data "ZZZ".data = 0 :=
  ⟨c4_bitrate_extractors.1 ['2', '5', '6'] [] (by decide) (by decide),
   c4_bitrate_extractors.2.1 ['1', '2', '8'] [] (by decide) (by decide),
   c4_bitrate_extractors.2.2.1 "aac_1_0".data (by decide) (by decide),
   c4_bitrate_extractors.2.2.2.1 "mp3_hq".data (by decide) (by decide),
   c4_bitrate_extractors.2.2.2.2 "zzz_hq".data "ZZZ".data (by decide) (by decide)
     (by decide) (by decide)⟩

/-- Claim C7: for a track with downloadable and has_downloads_left both
true, get_track_info takes the direct-asset path: file_url and download_url
are the resolved asset url, the stream is not HLS, the outcome is entirely
independent of the transcoding list, the codec comes from the Content-Type
header (audio/mpeg to MP3, audio/ogg to the vorbis family), and an unknown
content type falls back to AAC with a diagnostic naming the unknown type. -/
theorem c7_direct_download (inp : TrackInput) (hd : inp.downloadable = true)
    (hl : inp.hasDownloadsLeft = true) :
    ((trackStreamDecision inp).download_url = some inp.downloadUrl ∧
     (trackStreamDecision inp).file_url = some inp.downloadUrl ∧
     (trackStreamDecision inp).is_hls = false ∧
     (trackStreamDecision inp).codec = (directCodec inp.contentType).1 ∧
     (trackStreamDecision inp).error = (directCodec inp.contentType).2) ∧
    (∀ ts, trackStreamDecision { inp with transcodings := ts } = trackStreamDecision inp) ∧
    directCodec "audio/mpeg" = (Codec.mp3, none) ∧
    directCodec "audio/ogg" = (Codec.vorbis, none) ∧
    (∀ ct, codecOfName (ctCodecStr ct) = none →
       directCodec ct =
         (Codec.aac, some ("Unknown codec from direct download Content-Type: " ++ ct))) := by
  refine ⟨?_, ?_, by decide, by decide, ?_⟩
  · unfold trackStreamDecision
    rw [if_pos ⟨hd, hl⟩]
    exact ⟨rfl, rfl, rfl, rfl, rfl⟩
  · intro ts
    unfold trackStreamDecision
    rw [if_pos ⟨hd, hl⟩, if_pos ⟨hd, hl⟩]
  · intro ct h
    unfold directCodec
    rw [h]

/-- Claim C7, witness: a downloadable track with content type audio/mpeg
uses the direct path with codec MP3 regardless of its transcodings. -/
theorem c7_witness :
    (trackStreamDecision
      { downloadable := true, hasDownloadsLeft := true, streamable := true
        transcodings := [{ url := some "https://u/h", protocol := "hls", preset := "aac_256k" }]
        downloadUrl := "https://dl/x", contentType := "audio/mpeg" }).download_url =
      some "https://dl/x" ∧
    (trackStreamDecision
      { downloadable := true, hasDownloadsLeft := true, streamable := true
        transcodings := [{ url := some "https://u/h", protocol := "hls", preset := "aac_256k" }]
        downloadUrl := "https://dl/x", contentType := "audio/mpeg" }).codec = Codec.mp3 ∧
    trackStreamDecision
      { downloadable := true, hasDownloadsLeft := true, streamable := true
        transcodings := [{ url := some "https://u/h", protocol := "hls", preset := "aac_256k" }]
        downloadUrl := "https://dl/x", contentType := "audio/mpeg" } =
    trackStreamDecision
      { downloadable := true, hasDownloadsLeft := true, streamable := true
        transcodings := []
        downloadUrl := "https://dl/x", contentType := "audio/mpeg" } := by
  have h := c7_direct_download
    { downloadable := true, hasDownloadsLeft := true, streamable := true
      transcodings := [{ url := some "https://u/h", protocol := "hls", preset := "aac_256k" }]
      downloadUrl := "https://dl/x", contentType := "audio/mpeg" } rfl rfl
  refine ⟨h.1.1, ?_, ?_⟩
  · rw [h.1.2.2.2.1]
    rw [show directCodec "audio/mpeg" = (Codec.mp3, none) from h.2.2.1]
  · exact (h.2.1 []).symm

/-- Claim C8: in the non-HLS path of get_track_download, an AAC remux
failure is non-fatal: the partial output is removed, a warning is printed,
and the raw unremuxed temporary file is returned; for every non-AAC codec no
local download happens and the resolved url is returned together with its
Authorization header value. -/
theorem c8_nonhls_paths (codec : Codec)
    (resolvedUrl accessToken tempLoc outputLoc : String) (remuxOk : Bool) :
    (codec = Codec.aac → remuxOk = false →
      nonHlsDownload codec resolvedUrl accessToken tempLoc outputLoc remuxOk =
        (Except.ok (DlResult.tempFile tempLoc),
         [DlEvent.downloadToTemp resolvedUrl tempLoc,
          DlEvent.remuxAttempt tempLoc outputLoc,
          DlEvent.removedFile outputLoc,
          DlEvent.printedWarning])) ∧
    (codec ≠ Codec.aac →
      nonHlsDownload codec resolvedUrl accessToken tempLoc outputLoc remuxOk =
        (Except.ok (DlResult.urlResult resolvedUrl ("OAuth " ++ accessToken)), [])) := by
  constructor
  · intro hc hr
    subst hc
    subst hr
    unfold nonHlsDownload
    rw [if_pos rfl]
    rfl
  · intro hc
    unfold nonHlsDownload
    rw [if_neg hc]

/-- Claim C8, witness: the AAC remux-failure path and the Opus direct-url
path at concrete arguments. -/
theorem c8_witness :
    nonHlsDownload Codec.aac "https://cdn/s.m4a" "tok" "/tmp/a.m4a" "/tmp/b.m4a" false =
      (Except.ok (DlResult.tempFile "/tmp/a.m4a"),
       [DlEvent.downloadToTemp "https://cdn/s.m4a" "/tmp/a.m4a",
        DlEvent.remuxAttempt "/tmp/a.m4a" "/tmp/b.m4a",
        DlEvent.removedFile "/tmp/b.m4a",
        DlEvent.printedWarning]) ∧
    nonHlsDownload Codec.opus "https://cdn/s.ogg" "tok" "/tmp/a.ogg" "/tmp/b.ogg" true =
      (Except.ok (DlResult.urlResult "https://cdn/s.ogg" ("OAuth " ++ "tok")), []) :=
  ⟨(c8_nonhls_paths Codec.aac "https://cdn/s.m4a" "tok" "/tmp/a.m4a" "/tmp/b.m4a" false).1
     rfl rfl,
   (c8_nonhls_paths Codec.opus "https://cdn/s.ogg" "tok" "/tmp/a.ogg" "/tmp/b.ogg" true).2
     (by decide)⟩

/-- Claim C9: in the HLS path, every external-tool failure (non-zero exit
code or raised exception) is terminal: the result is an error, the tool ran
exactly once (no retry), and the trace is exactly one tool run followed by
removal of the partially written output file, so cleanup precedes error
propagation. -/
theorem c9_hls_failure_cleanup (u outputLoc : String) (outcome : FfmpegOutcome)
    (hf : isFfmpegFailure outcome = true) :
    (∃ msg, (hlsDownload (some u) outputLoc outcome).1 = Except.error msg) ∧
    (hlsDownload (some u) outputLoc outcome).2 =
      [DlEvent.runHls u outputLoc, DlEvent.removedFile outputLoc] ∧
    ((hlsDownload (some u) outputLoc outcome).2.count (DlEvent.runHls u outputLoc)) = 1 := by
  have hcount : (DlEvent.runHls u outputLoc) ≠ (DlEvent.removedFile outputLoc) := by
    intro h
    exact DlEvent.noConfusion h
  have hcnt : List.count (DlEvent.runHls u outputLoc)
      [DlEvent.runHls u outputLoc, DlEvent.removedFile outputLoc] = 1 := by
    rw [List.count_cons_self, List.count_cons_of_ne hcount, List.count_nil]
  cases outcome with
  | exited rc =>
    have hrc : ¬ rc = 0 := by
      unfold isFfmpegFailure at hf
      simpa using hf
    simp only [hlsDownload]
    rw [if_neg hrc]
    exact ⟨⟨"HLS_DOWNLOAD_FFMPEG_ERROR", rfl⟩, rfl, hcnt⟩
  | libError msg =>
    exact ⟨⟨"HLS_FFMPEG_LIB_ERROR: " ++ msg, rfl⟩, rfl, hcnt⟩
  | otherError msg =>
    exact ⟨⟨"HLS_UNEXPECTED_ERROR_IN_TRY_BLOCK: " ++ msg, rfl⟩, rfl, hcnt⟩

/-- Claim C9, witness: exit code 1 at concrete arguments. -/
theorem c9_witness :
    (∃ msg, (hlsDownload (some "https://hls/p.m3u8") "/tmp/o.m4a"
        (FfmpegOutcome.exited 1)).1 = Except.error msg) ∧
    (hlsDownload (some "https://hls/p.m3u8") "/tmp/o.m4a" (FfmpegOutcome.exited 1)).2 =
      [DlEvent.runHls "https://hls/p.m3u8" "/tmp/o.m4a", DlEvent.removedFile "/tmp/o.m4a"] ∧
    ((hlsDownload (some "https://hls/p.m3u8") "/tmp/o.m4a"
        (FfmpegOutcome.exited 1)).2.count
      (DlEvent.runHls "https://hls/p.m3u8" "/tmp/o.m4a")) = 1 :=
  c9_hls_failure_cleanup "https://hls/p.m3u8" "/tmp/o.m4a" (FfmpegOutcome.exited 1) (by decide)

/-- Claim C10: a transcoding whose uppercased first preset segment is not a
recognized codec name is silently excluded from selection regardless of its
url or protocol, and a nonempty transcoding list consisting only of such
entries yields the no-usable-transcodings diagnostic on the streamable
path. -/
theorem c10_unrecognized_codec_excluded :
    (∀ (l1 l2 : List Transcoding) (t : Transcoding),
       codecOfName (streamCodecName t.preset) = none →
       availableStreams (l1 ++ t :: l2) = availableStreams (l1 ++ l2)) ∧
    (∀ inp : TrackInput,
       (inp.downloadable = true ∧ inp.hasDownloadsLeft = true → False) →
       inp.streamable = true → inp.transcodings ≠ [] →
       (∀ t ∈ inp.transcodings, codecOfName (streamCodecName t.preset) = none) →
       trackStreamDecision inp =
         { file_url := none, download_url := none, codec := Codec.aac
           is_hls := false, error := some noUsableMsg }) := by
  constructor
  · intro l1 l2 t ht
    unfold availableStreams
    rw [List.filterMap_append, List.filterMap_append]
    rw [List.filterMap_cons, scoreStream_none_of_unrecognized ht]
  · intro inp hnd hs hne hall
    have hav : availableStreams inp.transcodings = [] :=
      List.filterMap_eq_nil_iff.mpr fun t ht =>
        scoreStream_none_of_unrecognized (hall t ht)
    have hout : selectionOutcome inp.transcodings =
        { best := none, error := some noUsableMsg } := by
      unfold selectionOutcome
      rw [show selectBest (availableStreams inp.transcodings) = none from
        selectBest_eq_none.mpr hav]
    unfold trackStreamDecision
    rw [if_neg hnd, if_pos hs]
    rw [if_neg (by simp [List.isEmpty_eq_false.mpr hne])]
    rw [hout]

/-- Claim C10, witness: a single transcoding with unrecognized codec name
zzz, with a url and hls protocol, yields the no-usable diagnostic. -/
theorem c10_witness :
    trackStreamDecision
      { downloadable := false, hasDownloadsLeft := true, streamable := true
        transcodings := [{ url := some "https://u/z", protocol := "hls", preset := "zzz_hq" }]
        downloadUrl := "", contentType := "" } =
      { file_url := none, download_url := none, codec := Codec.aac
        is_hls := false, error := some noUsableMsg } :=
  c10_unrecognized_codec_excluded.2
    { downloadable := false, hasDownloadsLeft := true, streamable := true
      transcodings := [{ url := some "https://u/z", protocol := "hls", preset := "zzz_hq" }]
      downloadUrl := "", contentType := "" }
    (by intro h; exact absurd h.1 (by decide)) rfl (by decide)
    (by intro t ht; simp at ht; rw [ht]; decide)

end SC
